import Mathlib

/-!
Shallow embedding of `hybrid_android_helper` (`src/main.rs`): the subsystem
classification engine (`check_buffer_cfgload_system`, `check_fat_dir_system`
and the chain down from `check_dir_entry_system`), the numeric suffix parser
(`id_from_bytes`), and the device scanner (`scan`), together with theorems
settling the specification claims about them.

Byte buffers and raw (OS-level) file names are modelled as `List Nat`
(byte values); FAT entry names, which the code obtains as UTF-8 strings
via `file_name()`, are modelled as `String`.  I/O errors carry a `String`
message, mirroring `Error::IOError(String)`.
-/

namespace HybridAndroidHelper

/-- The four recognized subsystem variants (`enum SubSystem` in main.rs). -/
inductive SubSystem where
  | OfficialCoreELEC
  | OfficialEmuELEC
  | HybridCoreELEC
  | HybridEmuELEC
  deriving DecidableEq, Fintype

/-- The fixed priority order of `SubSystem::iterator()` (the `SUBSYSTEMS`
const array in main.rs). -/
def SUBSYSTEMS : List SubSystem :=
  [.OfficialCoreELEC, .OfficialEmuELEC, .HybridCoreELEC, .HybridEmuELEC]

/-- Marker byte sequences of `SubSystem::cfgload_flag` — the ASCII bytes of
`b"CoreELEC on eMMC"`, `b"EmuELEC on eMMC"`, `b"HybridELEC (CE) on eMMC"`,
`b"HybridELEC (EE) on eMMC"` respectively. -/
def cfgload_flag : SubSystem → List Nat
  | .OfficialCoreELEC =>
      [67, 111, 114, 101, 69, 76, 69, 67, 32, 111, 110, 32, 101, 77, 77, 67]
  | .OfficialEmuELEC =>
      [69, 109, 117, 69, 76, 69, 67, 32, 111, 110, 32, 101, 77, 77, 67]
  | .HybridCoreELEC =>
      [72, 121, 98, 114, 105, 100, 69, 76, 69, 67, 32, 40, 67, 69, 41, 32,
       111, 110, 32, 101, 77, 77, 67]
  | .HybridEmuELEC =>
      [72, 121, 98, 114, 105, 100, 69, 76, 69, 67, 32, 40, 69, 69, 41, 32,
       111, 110, 32, 101, 77, 77, 67]

/-- Model of Rust's `slice::windows(n)`: all contiguous subslices of
length `n`, in order.  (For `n` larger than the list there are none.) -/
def windows (n : Nat) (l : List Nat) : List (List Nat) :=
  (List.range (l.length + 1 - n)).map (fun i => (l.drop i).take n)

/-- Model of `buffer.windows(flag.len()).position(|w| w == flag).is_some()`
from `check_buffer_cfgload_system`. -/
def windowsMatch (flag buffer : List Nat) : Bool :=
  (windows flag.length buffer).any (fun w => w == flag)

/-- The `for subsystem in SubSystem::iterator()` loop body of
`check_buffer_cfgload_system`. -/
def check_buffer_loop (buffer : List Nat) : List SubSystem → Option SubSystem
  | [] => none
  | s :: rest =>
    if windowsMatch (cfgload_flag s) buffer then some s
    else check_buffer_loop buffer rest

/-- `check_buffer_cfgload_system` from main.rs: first subsystem, in
`SUBSYSTEMS` order, whose marker byte sequence occurs as a window of the
buffer. -/
def check_buffer_cfgload_system (buffer : List Nat) : Option SubSystem :=
  check_buffer_loop buffer SUBSYSTEMS

theorem windowsMatch_iff (flag buf : List Nat) :
    windowsMatch flag buf = true ↔ flag <:+: buf := by
  unfold windowsMatch windows
  rw [List.any_eq_true]
  constructor
  · rintro ⟨w, hw, hbeq⟩
    rw [List.mem_map] at hw
    obtain ⟨i, hi, rfl⟩ := hw
    rw [beq_iff_eq] at hbeq
    refine ⟨buf.take i, (buf.drop i).drop flag.length, ?_⟩
    have h2 : flag ++ (buf.drop i).drop flag.length = buf.drop i := by
      nth_rewrite 1 [← hbeq]
      exact List.take_append_drop _ _
    rw [List.append_assoc, h2, List.take_append_drop]
  · rintro ⟨s, t, rfl⟩
    refine ⟨flag, ?_, by simp⟩
    rw [List.mem_map]
    refine ⟨s.length, ?_, ?_⟩
    · rw [List.mem_range]
      simp only [List.length_append]
      omega
    · rw [List.append_assoc, List.drop_left, List.take_left]

theorem check_buffer_loop_eq_find (buf : List Nat) (l : List SubSystem) :
    check_buffer_loop buf l =
      l.find? (fun s => decide (cfgload_flag s <:+: buf)) := by
  induction l with
  | nil => rfl
  | cons s rest ih =>
    rw [check_buffer_loop, List.find?_cons]
    by_cases h : cfgload_flag s <:+: buf
    · rw [if_pos ((windowsMatch_iff _ _).mpr h), decide_eq_true h]
    · rw [if_neg (fun hw => h ((windowsMatch_iff _ _).mp hw)),
        decide_eq_false h, ih]

/-- C1: for every byte buffer, `check_buffer_cfgload_system` returns the
first subsystem, in the fixed priority order `SUBSYSTEMS`, whose marker
byte sequence occurs as a contiguous (case-sensitive) subsequence anywhere
in the buffer; in particular, if the buffer contains the sequence of class
`x` and the sequence of no earlier-priority class, the result is `some x`. -/
theorem c1_marker_priority (buf : List Nat) :
    check_buffer_cfgload_system buf =
      SUBSYSTEMS.find? (fun s => decide (cfgload_flag s <:+: buf)) ∧
    ∀ x : SubSystem, cfgload_flag x <:+: buf →
      (∀ y : SubSystem, SUBSYSTEMS.indexOf y < SUBSYSTEMS.indexOf x →
        ¬ cfgload_flag y <:+: buf) →
      check_buffer_cfgload_system buf = some x := by
  refine ⟨check_buffer_loop_eq_find buf SUBSYSTEMS, ?_⟩
  intro x hx hmin
  rw [check_buffer_cfgload_system, check_buffer_loop_eq_find buf SUBSYSTEMS]
  cases x with
  | OfficialCoreELEC =>
    simp [SUBSYSTEMS, List.find?, decide_eq_true hx]
  | OfficialEmuELEC =>
    have h0 := hmin .OfficialCoreELEC (by decide)
    simp [SUBSYSTEMS, List.find?, decide_eq_true hx, decide_eq_false h0]
  | HybridCoreELEC =>
    have h0 := hmin .OfficialCoreELEC (by decide)
    have h1 := hmin .OfficialEmuELEC (by decide)
    simp [SUBSYSTEMS, List.find?, decide_eq_true hx, decide_eq_false h0,
      decide_eq_false h1]
  | HybridEmuELEC =>
    have h0 := hmin .OfficialCoreELEC (by decide)
    have h1 := hmin .OfficialEmuELEC (by decide)
    have h2 := hmin .HybridCoreELEC (by decide)
    simp [SUBSYSTEMS, List.find?, decide_eq_true hx, decide_eq_false h0,
      decide_eq_false h1, decide_eq_false h2]

/-- Witness for C1 at a concrete buffer: the bytes of
`"HybridELEC (CE) on eMMC"` themselves classify as Hybrid CoreELEC. -/
theorem c1_marker_priority_witness :
    check_buffer_cfgload_system (cfgload_flag .HybridCoreELEC) =
      some .HybridCoreELEC :=
  (c1_marker_priority (cfgload_flag .HybridCoreELEC)).2 .HybridCoreELEC
    (by decide) (by decide)

instance exceptDecEq {ε α : Type} [DecidableEq ε] [DecidableEq α] :
    DecidableEq (Except ε α) := fun x y =>
  match x, y with
  | .ok a, .ok b =>
    if h : a = b then .isTrue (by rw [h])
    else .isFalse (fun hc => h (Except.ok.inj hc))
  | .error a, .error b =>
    if h : a = b then .isTrue (by rw [h])
    else .isFalse (fun hc => h (Except.error.inj hc))
  | .ok _, .error _ => .isFalse (fun hc => Except.noConfusion hc)
  | .error _, .ok _ => .isFalse (fun hc => Except.noConfusion hc)

/-- A FAT directory entry as exposed by the fatfs driver: a name (UTF-8
string from `file_name()`), a kind (`is_dir`), and — for the marker file —
the outcome of reading its byte content in full (`read_to_end`), which may
fail with an I/O error. -/
structure FSEntry where
  name : String
  isDir : Bool
  content : Except String (List Nat)
  deriving DecidableEq

/-- `DirEntry::is_file` of the fatfs driver (an entry is a file iff it is
not a directory). -/
def FSEntry.is_file (e : FSEntry) : Bool := !e.isDir

/-- `DirEntry::is_dir` of the fatfs driver. -/
def FSEntry.is_dir (e : FSEntry) : Bool := e.isDir

/-- `check_fat_file_cfgload_system` from main.rs: propagate a failed
`read_to_end`, otherwise scan the buffer. -/
def check_fat_file_cfgload_system (readResult : Except String (List Nat)) :
    Except String (Option SubSystem) :=
  match readResult with
  | .error e => .error e
  | .ok buffer => .ok (check_buffer_cfgload_system buffer)

/-- `check_fat_entry_cfgload_system` from main.rs. -/
def check_fat_entry_cfgload_system (cfgload : FSEntry) :
    Except String (Option SubSystem) :=
  check_fat_file_cfgload_system cfgload.content

/-- The mutable locals of `check_fat_dir_system`. -/
structure DirScanState where
  config_ini : Bool
  device_trees : Bool
  kernel_img : Bool
  system : Bool
  cfgload : Option FSEntry
  deriving DecidableEq

/-- Initial values of the locals of `check_fat_dir_system`. -/
def initState : DirScanState := ⟨false, false, false, false, none⟩

/-- One iteration of the entry loop of `check_fat_dir_system` (the `match
entry.file_name().as_str()` block). -/
def dir_scan_step (st : DirScanState) (entry : FSEntry) : DirScanState :=
  if entry.name = "cfgload" then
    { st with cfgload := if entry.is_file then some entry else none }
  else if entry.name = "config.ini" then
    { st with config_ini := entry.is_file }
  else if entry.name = "device_trees" then
    { st with device_trees := entry.is_dir }
  else if entry.name = "kernel.img" then
    { st with kernel_img := entry.is_file }
  else if entry.name = "SYSTEM" then
    { st with system := entry.is_file }
  else st

/-- The entry loop of `check_fat_dir_system`: a directory listing is a
sequence of entry-read outcomes (`dir.iter()` yields `Result` items); the
first failed entry read aborts with its error (the `map_err(...)?`). -/
def check_fat_dir_loop (st : DirScanState) :
    List (Except String FSEntry) → Except String DirScanState
  | [] => .ok st
  | .error e :: _ => .error e
  | .ok entry :: rest => check_fat_dir_loop (dir_scan_step st entry) rest

/-- The pure part of the entry loop, on a listing with no read failures. -/
def scanEntries (l : List FSEntry) : DirScanState :=
  l.foldl dir_scan_step initState

/-- The tail of `check_fat_dir_system` after its entry loop: if all four
required flags hold and a `cfgload` handle was captured, classify through
it, else `subsystem` stays `None`. -/
def classify_state (st : DirScanState) : Except String (Option SubSystem) :=
  if st.config_ini && st.device_trees && st.kernel_img && st.system then
    match st.cfgload with
    | some cfgload => check_fat_entry_cfgload_system cfgload
    | none => .ok none
  else .ok none

/-- `check_fat_dir_system` from main.rs: run the entry loop, then classify
through the captured `cfgload` handle if all four required entries were
seen. -/
def check_fat_dir_system (dir : List (Except String FSEntry)) :
    Except String (Option SubSystem) :=
  match check_fat_dir_loop initState dir with
  | .error e => .error e
  | .ok st => classify_state st

/-- The last entry of the listing carrying a given name (the one whose
assignment wins in the entry loop). -/
def lastNamed (l : List FSEntry) (n : String) : Option FSEntry :=
  (l.filter (fun e => e.name == n)).getLast?

/-- Final value of a required-file flag, as a function of the last
same-named entry. -/
def fileFlagOf : Option FSEntry → Bool
  | some e => e.is_file
  | none => false

/-- Final value of the `device_trees` flag, as a function of the last
same-named entry. -/
def dirFlagOf : Option FSEntry → Bool
  | some e => e.is_dir
  | none => false

/-- Final value of the captured `cfgload` handle, as a function of the last
entry named `cfgload`. -/
def cfgloadOf : Option FSEntry → Option FSEntry
  | some e => if e.is_file then some e else none
  | none => none

theorem lastNamed_append (xs : List FSEntry) (e : FSEntry) (n : String) :
    lastNamed (xs ++ [e]) n =
      if e.name = n then some e else lastNamed xs n := by
  unfold lastNamed
  rw [List.filter_append]
  by_cases h : e.name = n
  · simp [h]
  · simp [h]

theorem scanEntries_eq (l : List FSEntry) :
    scanEntries l =
      ⟨fileFlagOf (lastNamed l "config.ini"),
       dirFlagOf (lastNamed l "device_trees"),
       fileFlagOf (lastNamed l "kernel.img"),
       fileFlagOf (lastNamed l "SYSTEM"),
       cfgloadOf (lastNamed l "cfgload")⟩ := by
  induction l using List.reverseRecOn with
  | nil => rfl
  | append_singleton xs e ih =>
    rw [scanEntries, List.foldl_append]
    have step : scanEntries xs = xs.foldl dir_scan_step initState := rfl
    rw [← step, ih]
    by_cases h1 : e.name = "cfgload"
    · simp [dir_scan_step, lastNamed_append, h1, fileFlagOf, dirFlagOf, cfgloadOf]
    · by_cases h2 : e.name = "config.ini"
      · simp [dir_scan_step, lastNamed_append, h1, h2, fileFlagOf, dirFlagOf,
          cfgloadOf]
      · by_cases h3 : e.name = "device_trees"
        · simp [dir_scan_step, lastNamed_append, h1, h2, h3, fileFlagOf,
            dirFlagOf, cfgloadOf]
        · by_cases h4 : e.name = "kernel.img"
          · simp [dir_scan_step, lastNamed_append, h1, h2, h3, h4, fileFlagOf,
              dirFlagOf, cfgloadOf]
          · by_cases h5 : e.name = "SYSTEM"
            · simp [dir_scan_step, lastNamed_append, h1, h2, h3, h4, h5,
                fileFlagOf, dirFlagOf, cfgloadOf]
            · simp [dir_scan_step, lastNamed_append, h1, h2, h3, h4, h5]

theorem check_fat_dir_loop_map_ok (l : List FSEntry) (st : DirScanState) :
    check_fat_dir_loop st (l.map Except.ok) = .ok (l.foldl dir_scan_step st) := by
  induction l generalizing st with
  | nil => rfl
  | cons e rest ih => rw [List.map_cons, check_fat_dir_loop, ih, List.foldl_cons]

theorem check_fat_dir_loop_ok_inv (dir : List (Except String FSEntry))
    (st st' : DirScanState) (h : check_fat_dir_loop st dir = .ok st') :
    ∃ l : List FSEntry, dir = l.map Except.ok ∧ st' = l.foldl dir_scan_step st := by
  induction dir generalizing st with
  | nil =>
    refine ⟨[], rfl, ?_⟩
    rw [check_fat_dir_loop] at h
    exact (Except.ok.injEq _ _ ▸ h.symm : st' = st)
  | cons x rest ih =>
    cases x with
    | error e => exact absurd h (by rw [check_fat_dir_loop]; exact fun hc => Except.noConfusion hc)
    | ok e =>
      rw [check_fat_dir_loop] at h
      obtain ⟨l, hl, hst⟩ := ih _ h
      exact ⟨e :: l, by rw [List.map_cons, hl], by rw [List.foldl_cons, hst]⟩

theorem check_fat_dir_loop_error_of_mem (dir : List (Except String FSEntry))
    (st : DirScanState) (s : String) (h : Except.error s ∈ dir) :
    ∃ s', check_fat_dir_loop st dir = .error s' := by
  induction dir generalizing st with
  | nil => exact absurd h (List.not_mem_nil _)
  | cons x rest ih =>
    cases x with
    | error e => exact ⟨e, rfl⟩
    | ok e =>
      rcases List.mem_cons.mp h with hx | hx
      · exact absurd hx (fun hc => Except.noConfusion hc)
      · exact ih (dir_scan_step st e) hx

theorem check_fat_dir_system_map_ok (l : List FSEntry) :
    check_fat_dir_system (l.map Except.ok) = classify_state (scanEntries l) := by
  unfold check_fat_dir_system
  rw [check_fat_dir_loop_map_ok]
  rfl

theorem mem_of_getLast_some {α : Type} {xs : List α} {a : α}
    (h : xs.getLast? = some a) : a ∈ xs := by
  obtain ⟨hne, heq⟩ := List.mem_getLast?_eq_getLast (Option.mem_def.mpr h)
  rw [heq]
  exact List.getLast_mem hne

theorem lastNamed_mem {l : List FSEntry} {n : String} {e : FSEntry}
    (h : lastNamed l n = some e) : e ∈ l ∧ e.name = n := by
  unfold lastNamed at h
  have hmem := mem_of_getLast_some h
  have := List.mem_filter.mp hmem
  exact ⟨this.1, by have hb := this.2; rwa [beq_iff_eq] at hb⟩

/-- C2: classification returns `some` class only if the directory contains
an entry named `config.ini` that is a file, an entry named `device_trees`
that is a directory, entries named `kernel.img` and `SYSTEM` that are
files, and an entry named `cfgload` that is a file; equivalently, if any
of these is missing or of the wrong kind the result is never `some` class,
regardless of marker-file content. -/
theorem c2_required_entries (dir : List (Except String FSEntry)) (c : SubSystem)
    (h : check_fat_dir_system dir = .ok (some c)) :
    (∃ e : FSEntry, Except.ok e ∈ dir ∧ e.name = "config.ini" ∧ e.is_file = true) ∧
    (∃ e : FSEntry, Except.ok e ∈ dir ∧ e.name = "device_trees" ∧ e.is_dir = true) ∧
    (∃ e : FSEntry, Except.ok e ∈ dir ∧ e.name = "kernel.img" ∧ e.is_file = true) ∧
    (∃ e : FSEntry, Except.ok e ∈ dir ∧ e.name = "SYSTEM" ∧ e.is_file = true) ∧
    (∃ e : FSEntry, Except.ok e ∈ dir ∧ e.name = "cfgload" ∧ e.is_file = true) := by
  rcases hloop : check_fat_dir_loop initState dir with s | st
  · unfold check_fat_dir_system at h
    rw [hloop] at h
    exact absurd h (fun hc => Except.noConfusion hc)
  obtain ⟨l, rfl, hst⟩ := check_fat_dir_loop_ok_inv dir initState st hloop
  rw [check_fat_dir_system_map_ok] at h
  unfold classify_state at h
  by_cases hcond : ((scanEntries l).config_ini && (scanEntries l).device_trees &&
      (scanEntries l).kernel_img && (scanEntries l).system) = true
  swap
  · rw [if_neg hcond] at h
    exact absurd (Except.ok.inj h) (fun hc => Option.noConfusion hc)
  rw [if_pos hcond] at h
  rcases hcfg : (scanEntries l).cfgload with _ | e0
  · rw [hcfg] at h
    exact absurd (Except.ok.inj h) (fun hc => Option.noConfusion hc)
  simp only [Bool.and_eq_true] at hcond
  obtain ⟨⟨⟨h1, h2⟩, h3⟩, h4⟩ := hcond
  rw [scanEntries_eq] at h1 h2 h3 h4 hcfg
  dsimp only at h1 h2 h3 h4 hcfg
  refine ⟨?_, ?_, ?_, ?_, ?_⟩
  · rcases hL : lastNamed l "config.ini" with _ | e
    · rw [hL] at h1; exact absurd h1 (by simp [fileFlagOf])
    · rw [hL] at h1
      obtain ⟨hmem, hname⟩ := lastNamed_mem hL
      exact ⟨e, List.mem_map_of_mem _ hmem, hname, h1⟩
  · rcases hL : lastNamed l "device_trees" with _ | e
    · rw [hL] at h2; exact absurd h2 (by simp [dirFlagOf])
    · rw [hL] at h2
      obtain ⟨hmem, hname⟩ := lastNamed_mem hL
      exact ⟨e, List.mem_map_of_mem _ hmem, hname, h2⟩
  · rcases hL : lastNamed l "kernel.img" with _ | e
    · rw [hL] at h3; exact absurd h3 (by simp [fileFlagOf])
    · rw [hL] at h3
      obtain ⟨hmem, hname⟩ := lastNamed_mem hL
      exact ⟨e, List.mem_map_of_mem _ hmem, hname, h3⟩
  · rcases hL : lastNamed l "SYSTEM" with _ | e
    · rw [hL] at h4; exact absurd h4 (by simp [fileFlagOf])
    · rw [hL] at h4
      obtain ⟨hmem, hname⟩ := lastNamed_mem hL
      exact ⟨e, List.mem_map_of_mem _ hmem, hname, h4⟩
  · rcases hL : lastNamed l "cfgload" with _ | e
    · rw [hL] at hcfg; exact absurd hcfg (by simp [cfgloadOf])
    · rw [hL] at hcfg
      obtain ⟨hmem, hname⟩ := lastNamed_mem hL
      refine ⟨e, List.mem_map_of_mem _ hmem, hname, ?_⟩
      by_cases hf : e.is_file = true
      · exact hf
      · simp [cfgloadOf, hf] at hcfg

/-- Concrete fixture: a `config.ini` file entry. -/
def configIniEntry : FSEntry := ⟨"config.ini", false, .ok []⟩

/-- Concrete fixture: a `device_trees` directory entry. -/
def deviceTreesEntry : FSEntry := ⟨"device_trees", true, .ok []⟩

/-- Concrete fixture: a `kernel.img` file entry. -/
def kernelImgEntry : FSEntry := ⟨"kernel.img", false, .ok []⟩

/-- Concrete fixture: a `SYSTEM` file entry. -/
def systemEntry : FSEntry := ⟨"SYSTEM", false, .ok []⟩

/-- Concrete fixture: a `cfgload` marker file whose content is the Hybrid
CoreELEC marker sequence. -/
def cfgloadHCE : FSEntry := ⟨"cfgload", false, .ok (cfgload_flag .HybridCoreELEC)⟩

/-- Concrete fixture: a `cfgload` marker file with empty content. -/
def cfgloadEmpty : FSEntry := ⟨"cfgload", false, .ok []⟩

/-- Concrete fixture: a complete directory classifying as Hybrid CoreELEC. -/
def hceDirEntries : List FSEntry :=
  [configIniEntry, deviceTreesEntry, kernelImgEntry, systemEntry, cfgloadHCE]

/-- Concrete fixture: a complete directory whose marker file is empty. -/
def emptyMarkerDirEntries : List FSEntry :=
  [configIniEntry, deviceTreesEntry, kernelImgEntry, systemEntry, cfgloadEmpty]

/-- Concrete fixture: `hceDirEntries` as an error-free directory listing. -/
def hceDir : List (Except String FSEntry) := hceDirEntries.map Except.ok

/-- Witness for C2 at a concrete directory that classifies as Hybrid
CoreELEC. -/
theorem c2_required_entries_witness :
    (∃ e : FSEntry, Except.ok e ∈ hceDir ∧
      e.name = "config.ini" ∧ e.is_file = true) ∧
    (∃ e : FSEntry, Except.ok e ∈ hceDir ∧
      e.name = "device_trees" ∧ e.is_dir = true) ∧
    (∃ e : FSEntry, Except.ok e ∈ hceDir ∧
      e.name = "kernel.img" ∧ e.is_file = true) ∧
    (∃ e : FSEntry, Except.ok e ∈ hceDir ∧
      e.name = "SYSTEM" ∧ e.is_file = true) ∧
    (∃ e : FSEntry, Except.ok e ∈ hceDir ∧
      e.name = "cfgload" ∧ e.is_file = true) :=
  c2_required_entries hceDir .HybridCoreELEC (by decide)

theorem dir_error_or_ok (dir : List (Except String FSEntry)) :
    (∃ s, Except.error s ∈ dir) ∨ ∃ l : List FSEntry, dir = l.map Except.ok := by
  induction dir with
  | nil => exact .inr ⟨[], rfl⟩
  | cons x rest ih =>
    cases x with
    | error e => exact .inl ⟨e, List.mem_cons_self _ _⟩
    | ok e =>
      rcases ih with ⟨s, hs⟩ | ⟨l, hl⟩
      · exact .inl ⟨s, List.mem_cons_of_mem _ hs⟩
      · exact .inr ⟨e :: l, by rw [hl, List.map_cons]⟩

/-- C6: classification of a single directory fails with an I/O error if and
only if reading some directory entry fails, or every entry reads fine, the
four required flags hold, a `cfgload` handle was captured, and reading its
content fails; in every other case the result is a successful `ok` (either
a class or no class). -/
theorem c6_error_iff (dir : List (Except String FSEntry)) :
    (∃ s, check_fat_dir_system dir = .error s) ↔
      ((∃ s, Except.error s ∈ dir) ∨
       (∃ l : List FSEntry, dir = l.map Except.ok ∧
         ((scanEntries l).config_ini && (scanEntries l).device_trees &&
           (scanEntries l).kernel_img && (scanEntries l).system) = true ∧
         ∃ e s, (scanEntries l).cfgload = some e ∧ e.content = .error s)) := by
  rcases dir_error_or_ok dir with ⟨s, hs⟩ | ⟨l, rfl⟩
  · constructor
    · intro _
      exact .inl ⟨s, hs⟩
    · intro _
      obtain ⟨s', hs'⟩ := check_fat_dir_loop_error_of_mem dir initState s hs
      refine ⟨s', ?_⟩
      unfold check_fat_dir_system
      rw [hs']
  · constructor
    · rintro ⟨s, hscl⟩
      rw [check_fat_dir_system_map_ok] at hscl
      unfold classify_state at hscl
      by_cases hcond : ((scanEntries l).config_ini && (scanEntries l).device_trees &&
          (scanEntries l).kernel_img && (scanEntries l).system) = true
      swap
      · rw [if_neg hcond] at hscl
        exact absurd hscl (fun hc => Except.noConfusion hc)
      rw [if_pos hcond] at hscl
      rcases hcfg : (scanEntries l).cfgload with _ | e
      · rw [hcfg] at hscl
        exact absurd hscl (fun hc => Except.noConfusion hc)
      rw [hcfg] at hscl
      unfold check_fat_entry_cfgload_system check_fat_file_cfgload_system at hscl
      dsimp only at hscl
      rcases hcontent : e.content with s' | buf
      · exact .inr ⟨l, rfl, hcond, e, s', hcfg, hcontent⟩
      · rw [hcontent] at hscl
        dsimp only at hscl
        exact absurd hscl (fun hc => Except.noConfusion hc)
    · rintro (⟨s, hs⟩ | ⟨l', hl', hcond, e, s, hcfg, hcontent⟩)
      · obtain ⟨x, _, hx⟩ := List.mem_map.mp hs
        exact absurd hx (fun hc => Except.noConfusion hc)
      · have hll : l = l' :=
          List.map_injective_iff.mpr (fun a b hab => Except.ok.inj hab) hl'
        subst hll
        refine ⟨s, ?_⟩
        rw [check_fat_dir_system_map_ok]
        unfold classify_state
        rw [if_pos hcond, hcfg]
        unfold check_fat_entry_cfgload_system check_fat_file_cfgload_system
        dsimp only
        rw [hcontent]

/-- C7: a marker file whose content contains none of the known marker
sequences — in particular an empty one — yields a successful `no class`
outcome, not an error, even when all required entries are present. -/
theorem c7_no_sequence_ok_none (l : List FSEntry) (e : FSEntry) (buf : List Nat)
    (hflags : ((scanEntries l).config_ini && (scanEntries l).device_trees &&
      (scanEntries l).kernel_img && (scanEntries l).system) = true)
    (hcfg : (scanEntries l).cfgload = some e)
    (hcontent : e.content = .ok buf)
    (hnone : ∀ s : SubSystem, ¬ cfgload_flag s <:+: buf) :
    check_fat_dir_system (l.map Except.ok) = .ok none := by
  rw [check_fat_dir_system_map_ok]
  unfold classify_state
  rw [if_pos hflags, hcfg]
  unfold check_fat_entry_cfgload_system check_fat_file_cfgload_system
  dsimp only
  rw [hcontent]
  dsimp only
  have hbuf : check_buffer_cfgload_system buf = none := by
    rw [check_buffer_cfgload_system, check_buffer_loop_eq_find buf SUBSYSTEMS,
      List.find?_eq_none]
    intro s _
    simp [hnone s]
  rw [hbuf]

/-- Witness for C7: a complete directory whose marker file is empty
classifies as `no class`, successfully. -/
theorem c7_no_sequence_ok_none_witness :
    check_fat_dir_system (emptyMarkerDirEntries.map Except.ok) = .ok none :=
  c7_no_sequence_ok_none emptyMarkerDirEntries cfgloadEmpty []
    (by decide) (by decide) (by decide) (by decide)

theorem perm_eq_of_length_le_one {α : Type} {xs ys : List α}
    (h : xs.Perm ys) (hl : xs.length ≤ 1) : xs = ys := by
  cases xs with
  | nil => exact (List.perm_nil.mp h.symm).symm
  | cons x xs' =>
    cases xs' with
    | nil => exact List.singleton_perm.mp h
    | cons y ys' => simp at hl

theorem filter_name_length_le_one (l : List FSEntry) (n : String)
    (hn : (l.map FSEntry.name).Nodup) :
    (l.filter (fun e => e.name == n)).length ≤ 1 := by
  induction l with
  | nil => simp
  | cons e rest ih =>
    rw [List.map_cons, List.nodup_cons] at hn
    rw [List.filter_cons]
    by_cases hp : (e.name == n) = true
    · rw [if_pos hp]
      have hempty : rest.filter (fun x => x.name == n) = [] := by
        rw [List.filter_eq_nil_iff]
        intro x hx hxn
        apply hn.1
        rw [List.mem_map]
        refine ⟨x, hx, ?_⟩
        rw [beq_iff_eq] at hp hxn
        rw [hxn, hp]
      rw [hempty]
      simp
    · rw [if_neg hp]
      exact ih hn.2

theorem lastNamed_perm {l l' : List FSEntry} (hp : l.Perm l')
    (hn : (l.map FSEntry.name).Nodup) (n : String) :
    lastNamed l n = lastNamed l' n := by
  unfold lastNamed
  rw [perm_eq_of_length_le_one (hp.filter _) (filter_name_length_le_one l n hn)]

/-- C8: for a directory whose entry names are pairwise distinct, the
classification result is invariant under any permutation of the order in
which the entries are listed. -/
theorem c8_order_invariance (l l' : List FSEntry)
    (hn : (l.map FSEntry.name).Nodup) (hp : l.Perm l') :
    check_fat_dir_system (l.map Except.ok) =
      check_fat_dir_system (l'.map Except.ok) := by
  rw [check_fat_dir_system_map_ok, check_fat_dir_system_map_ok]
  have hs : scanEntries l = scanEntries l' := by
    rw [scanEntries_eq, scanEntries_eq,
      lastNamed_perm hp hn "config.ini", lastNamed_perm hp hn "device_trees",
      lastNamed_perm hp hn "kernel.img", lastNamed_perm hp hn "SYSTEM",
      lastNamed_perm hp hn "cfgload"]
  rw [hs]

/-- Witness for C8 at a concrete two-entry directory and its transposition. -/
theorem c8_order_invariance_witness :
    check_fat_dir_system ([configIniEntry, cfgloadEmpty].map Except.ok) =
      check_fat_dir_system ([cfgloadEmpty, configIniEntry].map Except.ok) :=
  c8_order_invariance [configIniEntry, cfgloadEmpty]
    [cfgloadEmpty, configIniEntry] (by decide)
    (List.Perm.swap cfgloadEmpty configIniEntry [])

/-- The per-byte digit match of `id_from_bytes` (the ten explicit
`b'0'..b'9'` arms; any other byte is rejected). -/
def digitVal : Nat → Option Nat
  | 48 => some 0
  | 49 => some 1
  | 50 => some 2
  | 51 => some 3
  | 52 => some 4
  | 53 => some 5
  | 54 => some 6
  | 55 => some 7
  | 56 => some 8
  | 57 => some 9
  | _ => none

/-- Modulus of the Rust `usize` arithmetic in `id_from_bytes` (64-bit,
wrapping on overflow). -/
def USIZE : Nat := 2 ^ 64

/-- The loop of `id_from_bytes`, walking the byte slice in reverse:
`id += digit * multiply; multiply *= 10`, in wrapping `usize` arithmetic;
a non-digit byte aborts with `None`. -/
def id_from_bytes_loop (multiply id : Nat) : List Nat → Option Nat
  | [] => some id
  | d :: rest =>
    match digitVal d with
    | none => none
    | some v =>
      id_from_bytes_loop (multiply * 10 % USIZE) ((id + v * multiply) % USIZE) rest

/-- `id_from_bytes` from main.rs. -/
def id_from_bytes (bytes : List Nat) : Option Nat :=
  id_from_bytes_loop 1 0 bytes.reverse

/-- Decimal value (most significant digit first) of a digit-byte string:
the mathematical value `id_from_bytes` computes before 64-bit wrapping. -/
def decimalVal (bytes : List Nat) : Nat :=
  bytes.foldl (fun a d => a * 10 + (d - 48)) 0

/-- Decimal value of a digit-byte string read least significant first. -/
def revVal : List Nat → Nat
  | [] => 0
  | d :: rest => (d - 48) + 10 * revVal rest

theorem USIZE_pos : 0 < USIZE := by decide

theorem digitVal_eq (d : Nat) (h1 : 48 ≤ d) (h2 : d ≤ 57) :
    digitVal d = some (d - 48) := by
  interval_cases d <;> rfl

theorem decimalVal_append (xs : List Nat) (d : Nat) :
    decimalVal (xs ++ [d]) = decimalVal xs * 10 + (d - 48) := by
  unfold decimalVal
  rw [List.foldl_append]
  rfl

theorem revVal_reverse (l : List Nat) : revVal l.reverse = decimalVal l := by
  induction l using List.reverseRecOn with
  | nil => rfl
  | append_singleton xs d ih =>
    rw [List.reverse_append, decimalVal_append]
    simp only [List.reverse_singleton, List.singleton_append]
    rw [revVal, ih]
    ring

theorem id_from_bytes_loop_eq (l : List Nat) :
    ∀ multiply id, id < USIZE → (∀ b ∈ l, 48 ≤ b ∧ b ≤ 57) →
      id_from_bytes_loop multiply id l = some ((id + revVal l * multiply) % USIZE) := by
  induction l with
  | nil =>
    intro m id hid _
    rw [id_from_bytes_loop, revVal, Nat.zero_mul, Nat.add_zero,
      Nat.mod_eq_of_lt hid]
  | cons d rest ih =>
    intro m id hid hdig
    have hd := hdig d (List.mem_cons_self _ _)
    rw [id_from_bytes_loop, digitVal_eq d hd.1 hd.2]
    dsimp only
    rw [ih _ _ (Nat.mod_lt _ USIZE_pos)
      (fun b hb => hdig b (List.mem_cons_of_mem _ hb))]
    congr 1
    rw [revVal]
    have e1 : (id + (d - 48) * m) % USIZE + revVal rest * (m * 10 % USIZE) ≡
        (id + (d - 48) * m) + revVal rest * (m * 10) [MOD USIZE] :=
      Nat.ModEq.add (Nat.mod_modEq _ _)
        (Nat.ModEq.mul_left _ (Nat.mod_modEq _ _))
    have e2 : (id + (d - 48) * m) + revVal rest * (m * 10) =
        id + ((d - 48) + 10 * revVal rest) * m := by ring
    rw [← e2]
    exact e1

/-- C10: on a byte sequence consisting solely of ASCII digit characters,
`id_from_bytes` returns `some` of the base-10 value of the digits reduced
modulo 2^64 (wrapping `usize` arithmetic); when that value fits in 64 bits
the result is exactly the decimal value, and the empty digit sequence
yields `some 0`. -/
theorem c10_digits_value (bytes : List Nat)
    (h : ∀ b ∈ bytes, 48 ≤ b ∧ b ≤ 57) :
    id_from_bytes bytes = some (decimalVal bytes % USIZE) ∧
    (decimalVal bytes < USIZE → id_from_bytes bytes = some (decimalVal bytes)) ∧
    id_from_bytes [] = some 0 := by
  have hmain : id_from_bytes bytes = some (decimalVal bytes % USIZE) := by
    rw [id_from_bytes,
      id_from_bytes_loop_eq bytes.reverse 1 0 USIZE_pos
        (fun b hb => h b (List.mem_reverse.mp hb))]
    congr 1
    rw [revVal_reverse]
    ring_nf
  refine ⟨hmain, fun hlt => ?_, rfl⟩
  rw [hmain, Nat.mod_eq_of_lt hlt]

/-- Witness for C10: the digit bytes of `"12"` parse to exactly 12. -/
theorem c10_digits_value_witness : id_from_bytes [49, 50] = some 12 :=
  ((c10_digits_value [49, 50] (by decide)).2.1 (by decide)).trans (by decide)

/-- The candidate-suffix handling inside the `scan` loop (main.rs lines
211–217): a parse failure (`None`) skips the candidate silently, and a
parsed suffix value of 0 is likewise skipped. -/
def scan_suffix_id (suffix : List Nat) : Option Nat :=
  match id_from_bytes suffix with
  | none => none
  | some id => if id = 0 then none else some id

/-- C5 counterexample: the empty suffix is not rejected by the parser —
`id_from_bytes` parses it successfully to `some 0`, not `none`. -/
theorem c5_counterexample :
    id_from_bytes [] = some 0 ∧ ¬ id_from_bytes [] = none := by
  refine ⟨rfl, fun h => Option.noConfusion h⟩

/-- C5 (amended): the digit suffix `"12"` parses to 12 and survives as a
candidate index; `"1a"` is rejected by the parser (skipped, no error);
the empty suffix parses to 0 — it is not a parse rejection — and is then
excluded from scanning by the zero-exclusion (skipped, no error); `"0"`
parses to 0 and is likewise excluded as a non-candidate. -/
theorem c5_suffix_parsing :
    id_from_bytes [49, 50] = some 12 ∧ scan_suffix_id [49, 50] = some 12 ∧
    id_from_bytes [49, 97] = none ∧ scan_suffix_id [49, 97] = none ∧
    id_from_bytes [] = some 0 ∧ scan_suffix_id [] = none ∧
    id_from_bytes [48] = some 0 ∧ scan_suffix_id [48] = none := by
  decide

/-- An opened FAT filesystem (the payload of a successful `FATFS::new`):
its root directory listing (`root_dir()`). -/
structure FATImage where
  root : List (Except String FSEntry)
  deriving DecidableEq

/-- An opened device file (the payload of a successful `File::open`):
mounting it as a FAT filesystem (`FATFS::new`) may fail. -/
structure DevFile where
  mount : Except String FATImage
  deriving DecidableEq

/-- A device-directory entry under `/dev/block`: its raw OS byte name
(`file_name().as_bytes()`) and the outcome of opening its path as a file
(`File::open`). -/
structure BlockDev where
  name : List Nat
  openResult : Except String DevFile
  deriving DecidableEq

/-- `check_fat_fs_system` from main.rs. -/
def check_fat_fs_system (fatfs : FATImage) : Except String (Option SubSystem) :=
  check_fat_dir_system fatfs.root

/-- `check_file_system` from main.rs: mount as FAT (may fail), then
classify the root directory. -/
def check_file_system (file : DevFile) : Except String (Option SubSystem) :=
  match file.mount with
  | .error e => .error e
  | .ok fatfs => check_fat_fs_system fatfs

/-- `check_path_system`/`check_dir_entry_system` from main.rs: open the
device path (may fail), then proceed as `check_file_system`. -/
def check_dir_entry_system (entry : BlockDev) :
    Except String (Option SubSystem) :=
  match entry.openResult with
  | .error e => .error e
  | .ok file => check_file_system file

/-- The candidate filter at the top of the `scan` loop body (main.rs lines
208–217): keep the entry only if its raw name starts with the prefix and
the remaining suffix parses to a nonzero id; the three `continue`s become
`none`. -/
def candidate_id (pfx : List Nat) (d : BlockDev) : Option Nat :=
  if pfx.isPrefixOf d.name then scan_suffix_id (d.name.drop pfx.length)
  else none

/-- One iteration of the `scan` loop: filter the candidate, classify it,
and update the per-class minima `(ce, ee)` exactly as the two
`if ce == 0 || ce > id` branches do; every other outcome (including a
failed `check_dir_entry_system`) leaves the accumulator unchanged. -/
def scan_step (pfx : List Nat) (acc : Nat × Nat) (d : BlockDev) : Nat × Nat :=
  match candidate_id pfx d with
  | none => acc
  | some id =>
    match check_dir_entry_system d with
    | .ok (some .HybridCoreELEC) =>
      if acc.1 = 0 ∨ acc.1 > id then (id, acc.2) else acc
    | .ok (some .HybridEmuELEC) =>
      if acc.2 = 0 ∨ acc.2 > id then (acc.1, id) else acc
    | _ => acc

/-- The `for entry in read_dir_checked("/dev/block")?` loop of `scan`: a
failed directory-entry read aborts with its error (the `map_err(...)?`),
otherwise the entry is processed by `scan_step`. -/
def scan_loop (pfx : List Nat) (acc : Nat × Nat) :
    List (Except String BlockDev) → Except String (Nat × Nat)
  | [] => .ok acc
  | .error e :: _ => .error e
  | .ok d :: rest => scan_loop pfx (scan_step pfx acc d) rest

/-- `scan` from main.rs: list the device directory (which may itself
fail), fold the candidates starting from `(0, 0)`, and print
`"{ce} {ee}"` (modelled as the returned string). -/
def scan (pfx : List Nat)
    (listing : Except String (List (Except String BlockDev))) :
    Except String String :=
  match listing with
  | .error e => .error e
  | .ok items =>
    match scan_loop pfx (0, 0) items with
    | .error e => .error e
    | .ok r => .ok (toString r.1 ++ " " ++ toString r.2)

theorem except_error_or_ok {α : Type} (xs : List (Except String α)) :
    (∃ s, Except.error s ∈ xs) ∨ ∃ l : List α, xs = l.map Except.ok := by
  induction xs with
  | nil => exact .inr ⟨[], rfl⟩
  | cons x rest ih =>
    cases x with
    | error e => exact .inl ⟨e, List.mem_cons_self _ _⟩
    | ok e =>
      rcases ih with ⟨s, hs⟩ | ⟨l, hl⟩
      · exact .inl ⟨s, List.mem_cons_of_mem _ hs⟩
      · exact .inr ⟨e :: l, by rw [hl, List.map_cons]⟩

theorem scan_loop_map_ok (pfx : List Nat) (l : List BlockDev) :
    ∀ acc, scan_loop pfx acc (l.map Except.ok) =
      .ok (l.foldl (scan_step pfx) acc) := by
  induction l with
  | nil => intro acc; rfl
  | cons d rest ih =>
    intro acc
    rw [List.map_cons, scan_loop, List.foldl_cons]
    exact ih _

theorem scan_loop_error_of_mem (pfx : List Nat)
    (items : List (Except String BlockDev)) (s : String)
    (h : Except.error s ∈ items) :
    ∀ acc, ∃ s', scan_loop pfx acc items = .error s' := by
  induction items with
  | nil => exact absurd h (List.not_mem_nil _)
  | cons x rest ih =>
    intro acc
    cases x with
    | error e => exact ⟨e, rfl⟩
    | ok d =>
      rcases List.mem_cons.mp h with hx | hx
      · exact absurd hx (fun hc => Except.noConfusion hc)
      · exact ih hx (scan_step pfx acc d)

theorem check_dir_entry_error_cases (d : BlockDev)
    (h : (∃ s, d.openResult = .error s) ∨
      (∃ f s, d.openResult = .ok f ∧ f.mount = .error s) ∨
      (∃ f img s, d.openResult = .ok f ∧ f.mount = .ok img ∧
        check_fat_fs_system img = .error s)) :
    ∃ s, check_dir_entry_system d = .error s := by
  unfold check_dir_entry_system check_file_system
  rcases h with ⟨s, hs⟩ | ⟨f, s, hf, hs⟩ | ⟨f, img, s, hf, himg, hs⟩
  · rw [hs]
    exact ⟨s, rfl⟩
  · rw [hf]
    dsimp only
    rw [hs]
    exact ⟨s, rfl⟩
  · rw [hf]
    dsimp only
    rw [himg]
    exact ⟨s, hs⟩

theorem scan_step_of_check_error (pfx : List Nat) (acc : Nat × Nat)
    (d : BlockDev) (h : ∃ s, check_dir_entry_system d = .error s) :
    scan_step pfx acc d = acc := by
  obtain ⟨s, hs⟩ := h
  unfold scan_step
  cases hcid : candidate_id pfx d with
  | none => rfl
  | some id => rw [hs]

theorem scan_loop_skip (pfx : List Nat) (d : BlockDev)
    (hd : ∀ acc, scan_step pfx acc d = acc)
    (pre : List (Except String BlockDev)) :
    ∀ (post : List (Except String BlockDev)) (acc : Nat × Nat),
    scan_loop pfx acc (pre ++ Except.ok d :: post) =
      scan_loop pfx acc (pre ++ post) := by
  induction pre with
  | nil =>
    intro post acc
    rw [List.nil_append, List.nil_append, scan_loop, hd acc]
  | cons x pre' ih =>
    intro post acc
    cases x with
    | error e => rfl
    | ok e =>
      rw [List.cons_append, List.cons_append, scan_loop, scan_loop]
      exact ih post (scan_step pfx acc e)

/-- C3: a failure in any of the three per-candidate steps — opening the
path as a file, mounting it as a FAT filesystem, or classifying its root
directory — never aborts a scan: such a candidate contributes exactly
nothing, as if absent from the listing; the scan as a whole fails with an
I/O error exactly when the device directory itself cannot be listed (its
listing fails outright, or yields a failed entry read). -/
theorem c3_candidate_failures_swallowed (pfx : List Nat) :
    (∀ s, scan pfx (.error s) = .error s) ∧
    (∀ items : List (Except String BlockDev),
      (∃ s, scan pfx (.ok items) = .error s) ↔ ∃ s, Except.error s ∈ items) ∧
    (∀ (pre post : List (Except String BlockDev)) (d : BlockDev),
      ((∃ s, d.openResult = .error s) ∨
       (∃ f s, d.openResult = .ok f ∧ f.mount = .error s) ∨
       (∃ f img s, d.openResult = .ok f ∧ f.mount = .ok img ∧
         check_fat_fs_system img = .error s)) →
      scan pfx (.ok (pre ++ Except.ok d :: post)) =
        scan pfx (.ok (pre ++ post))) := by
  refine ⟨fun s => rfl, ?_, ?_⟩
  · intro items
    constructor
    · rintro ⟨s, hscan⟩
      rcases except_error_or_ok items with hmem | ⟨l, rfl⟩
      · exact hmem
      · unfold scan at hscan
        dsimp only at hscan
        rw [scan_loop_map_ok] at hscan
        exact absurd hscan (fun hc => Except.noConfusion hc)
    · rintro ⟨s, hs⟩
      obtain ⟨s', hs'⟩ := scan_loop_error_of_mem pfx items s hs (0, 0)
      refine ⟨s', ?_⟩
      unfold scan
      dsimp only
      rw [hs']
  · intro pre post d h
    have hstep := fun acc =>
      scan_step_of_check_error pfx acc d (check_dir_entry_error_cases d h)
    unfold scan
    dsimp only
    rw [scan_loop_skip pfx d hstep pre post (0, 0)]

/-- Concrete fixture: a device whose path cannot even be opened. -/
def badDev : BlockDev := ⟨[112, 49], .error "io"⟩

/-- Witness for C3: a candidate that fails to open contributes nothing to
a concrete scan. -/
theorem c3_candidate_failures_swallowed_witness :
    scan [112] (.ok [Except.ok badDev]) = scan [112] (.ok []) :=
  (c3_candidate_failures_swallowed [112]).2.2 [] [] badDev
    (.inl ⟨"io", rfl⟩)

/-- The per-class minimum update of the `scan` loop:
`if ce == 0 || ce > id { ce = id }`. -/
def updMin (c id : Nat) : Nat := if c = 0 ∨ c > id then id else c

/-- The contribution of one device to the list of candidate indices that
classify as a given class. -/
def matched_id_fn (pfx : List Nat) (cls : SubSystem) (d : BlockDev) :
    Option Nat :=
  match candidate_id pfx d with
  | none => none
  | some id =>
    if check_dir_entry_system d = .ok (some cls) then some id else none

/-- All candidate indices among `items` that classify as `cls`. -/
def matched_ids (pfx : List Nat) (cls : SubSystem) (items : List BlockDev) :
    List Nat :=
  items.filterMap (matched_id_fn pfx cls)

theorem scan_suffix_id_pos {suffix : List Nat} {id : Nat}
    (h : scan_suffix_id suffix = some id) : 0 < id := by
  unfold scan_suffix_id at h
  rcases hp : id_from_bytes suffix with _ | v
  · rw [hp] at h
    exact absurd h (fun hc => Option.noConfusion hc)
  · rw [hp] at h
    dsimp only at h
    by_cases hv : v = 0
    · rw [if_pos hv] at h
      exact absurd h (fun hc => Option.noConfusion hc)
    · rw [if_neg hv] at h
      have := Option.some.inj h
      omega

theorem candidate_id_pos {pfx : List Nat} {d : BlockDev} {id : Nat}
    (h : candidate_id pfx d = some id) : 0 < id := by
  unfold candidate_id at h
  by_cases hp : pfx.isPrefixOf d.name = true
  · rw [if_pos hp] at h
    exact scan_suffix_id_pos h
  · rw [if_neg hp] at h
    exact absurd h (fun hc => Option.noConfusion hc)

theorem matched_ids_pos (pfx : List Nat) (cls : SubSystem)
    (items : List BlockDev) : ∀ i ∈ matched_ids pfx cls items, 0 < i := by
  intro i hi
  rw [matched_ids, List.mem_filterMap] at hi
  obtain ⟨d, _, hd⟩ := hi
  unfold matched_id_fn at hd
  rcases hcid : candidate_id pfx d with _ | id
  · rw [hcid] at hd
    exact absurd hd (fun hc => Option.noConfusion hc)
  · rw [hcid] at hd
    dsimp only at hd
    by_cases hc : check_dir_entry_system d = .ok (some cls)
    · rw [if_pos hc] at hd
      have := Option.some.inj hd
      have hpos := candidate_id_pos hcid
      omega
    · rw [if_neg hc] at hd
      exact absurd hd (fun hc => Option.noConfusion hc)

theorem scan_step_none (pfx : List Nat) (acc : Nat × Nat) (d : BlockDev)
    (hcid : candidate_id pfx d = none) : scan_step pfx acc d = acc := by
  unfold scan_step
  rw [hcid]

theorem scan_step_hce (pfx : List Nat) (acc : Nat × Nat) (d : BlockDev)
    (id : Nat) (hcid : candidate_id pfx d = some id)
    (hchk : check_dir_entry_system d = .ok (some .HybridCoreELEC)) :
    scan_step pfx acc d = (updMin acc.1 id, acc.2) := by
  unfold scan_step
  rw [hcid, hchk]
  dsimp only
  unfold updMin
  by_cases hc : acc.1 = 0 ∨ acc.1 > id
  · rw [if_pos hc, if_pos hc]
  · rw [if_neg hc, if_neg hc]

theorem scan_step_hee (pfx : List Nat) (acc : Nat × Nat) (d : BlockDev)
    (id : Nat) (hcid : candidate_id pfx d = some id)
    (hchk : check_dir_entry_system d = .ok (some .HybridEmuELEC)) :
    scan_step pfx acc d = (acc.1, updMin acc.2 id) := by
  unfold scan_step
  rw [hcid, hchk]
  dsimp only
  unfold updMin
  by_cases hc : acc.2 = 0 ∨ acc.2 > id
  · rw [if_pos hc, if_pos hc]
  · rw [if_neg hc, if_neg hc]

theorem scan_step_other (pfx : List Nat) (acc : Nat × Nat) (d : BlockDev)
    (h1 : ¬ check_dir_entry_system d = .ok (some .HybridCoreELEC))
    (h2 : ¬ check_dir_entry_system d = .ok (some .HybridEmuELEC)) :
    scan_step pfx acc d = acc := by
  unfold scan_step
  cases hcid : candidate_id pfx d with
  | none => rfl
  | some id =>
    rcases hchk : check_dir_entry_system d with e | o
    · rfl
    · rcases o with _ | cls
      · rfl
      · cases cls with
        | OfficialCoreELEC => rfl
        | OfficialEmuELEC => rfl
        | HybridCoreELEC => exact absurd hchk h1
        | HybridEmuELEC => exact absurd hchk h2

theorem matched_id_fn_none_of_cid (pfx : List Nat) (cls : SubSystem)
    (d : BlockDev) (hcid : candidate_id pfx d = none) :
    matched_id_fn pfx cls d = none := by
  unfold matched_id_fn
  rw [hcid]

theorem matched_id_fn_some (pfx : List Nat) (cls : SubSystem) (d : BlockDev)
    (id : Nat) (hcid : candidate_id pfx d = some id)
    (hchk : check_dir_entry_system d = .ok (some cls)) :
    matched_id_fn pfx cls d = some id := by
  unfold matched_id_fn
  rw [hcid]
  dsimp only
  rw [if_pos hchk]

theorem matched_id_fn_none_of_chk (pfx : List Nat) (cls : SubSystem)
    (d : BlockDev) (hchk : ¬ check_dir_entry_system d = .ok (some cls)) :
    matched_id_fn pfx cls d = none := by
  unfold matched_id_fn
  cases hcid : candidate_id pfx d with
  | none => rfl
  | some id =>
    dsimp only
    rw [if_neg hchk]

theorem scan_fold_eq (pfx : List Nat) (items : List BlockDev) :
    ∀ acc, items.foldl (scan_step pfx) acc =
      ((matched_ids pfx .HybridCoreELEC items).foldl updMin acc.1,
       (matched_ids pfx .HybridEmuELEC items).foldl updMin acc.2) := by
  induction items with
  | nil => intro acc; rfl
  | cons d rest ih =>
    intro acc
    rw [List.foldl_cons]
    unfold matched_ids
    cases hcid : candidate_id pfx d with
    | none =>
      rw [List.filterMap_cons_none (matched_id_fn_none_of_cid pfx _ d hcid),
        List.filterMap_cons_none (matched_id_fn_none_of_cid pfx _ d hcid),
        scan_step_none pfx acc d hcid]
      exact ih acc
    | some id =>
      by_cases hce : check_dir_entry_system d = .ok (some .HybridCoreELEC)
      · have hne : ¬ check_dir_entry_system d = .ok (some .HybridEmuELEC) := by
          rw [hce]
          intro hc
          exact SubSystem.noConfusion (Option.some.inj (Except.ok.inj hc))
        rw [List.filterMap_cons_some (matched_id_fn_some pfx _ d id hcid hce),
          List.filterMap_cons_none (matched_id_fn_none_of_chk pfx _ d hne),
          scan_step_hce pfx acc d id hcid hce, List.foldl_cons]
        exact ih _
      · by_cases hee : check_dir_entry_system d = .ok (some .HybridEmuELEC)
        · rw [List.filterMap_cons_none (matched_id_fn_none_of_chk pfx _ d hce),
            List.filterMap_cons_some (matched_id_fn_some pfx _ d id hcid hee),
            scan_step_hee pfx acc d id hcid hee, List.foldl_cons]
          exact ih _
        · rw [List.filterMap_cons_none (matched_id_fn_none_of_chk pfx _ d hce),
            List.filterMap_cons_none (matched_id_fn_none_of_chk pfx _ d hee),
            scan_step_other pfx acc d hce hee]
          exact ih acc

theorem foldl_updMin_mem_le (rest : List Nat) :
    ∀ c, 0 < c → (∀ i ∈ rest, 0 < i) →
      rest.foldl updMin c ∈ c :: rest ∧
      ∀ i ∈ c :: rest, rest.foldl updMin c ≤ i := by
  induction rest with
  | nil =>
    intro c _ _
    refine ⟨List.mem_cons_self _ _, ?_⟩
    intro i hi
    rcases List.mem_cons.mp hi with rfl | hi
    · exact Nat.le_refl _
    · exact absurd hi (List.not_mem_nil _)
  | cons d rest ih =>
    intro c hc hpos
    have hd : 0 < d := hpos d (List.mem_cons_self _ _)
    rw [List.foldl_cons]
    have hcd : (updMin c d = c ∨ updMin c d = d) ∧ updMin c d ≤ c ∧
        updMin c d ≤ d ∧ 0 < updMin c d := by
      unfold updMin
      by_cases h : c = 0 ∨ c > d
      · rw [if_pos h]
        exact ⟨.inr rfl, by omega, Nat.le_refl _, hd⟩
      · rw [if_neg h]
        push_neg at h
        exact ⟨.inl rfl, Nat.le_refl _, h.2, hc⟩
    obtain ⟨hmem, hlc, hld, hpos'⟩ := hcd
    obtain ⟨ihmem, ihle⟩ :=
      ih (updMin c d) hpos' (fun i hi => hpos i (List.mem_cons_of_mem _ hi))
    constructor
    · rcases List.mem_cons.mp ihmem with heq | hmem'
      · rw [heq]
        rcases hmem with h | h
        · rw [h]; exact List.mem_cons_self _ _
        · rw [h]; exact List.mem_cons_of_mem _ (List.mem_cons_self _ _)
      · exact List.mem_cons_of_mem _ (List.mem_cons_of_mem _ hmem')
    · intro i hi
      rcases List.mem_cons.mp hi with rfl | hi'
      · exact Nat.le_trans (ihle _ (List.mem_cons_self _ _)) hlc
      rcases List.mem_cons.mp hi' with rfl | hi2
      · exact Nat.le_trans (ihle _ (List.mem_cons_self _ _)) hld
      · exact ihle i (List.mem_cons_of_mem _ hi2)

theorem foldl_updMin_zero (l : List Nat) (hpos : ∀ i ∈ l, 0 < i) :
    (l.foldl updMin 0 = 0 ↔ l = []) ∧
    (l ≠ [] → l.foldl updMin 0 ∈ l ∧ ∀ i ∈ l, l.foldl updMin 0 ≤ i) := by
  cases l with
  | nil =>
    exact ⟨by simp, fun h => absurd rfl h⟩
  | cons d rest =>
    have hd : 0 < d := hpos d (List.mem_cons_self _ _)
    rw [List.foldl_cons]
    have hupd : updMin 0 d = d := by
      unfold updMin
      rw [if_pos (.inl rfl)]
    rw [hupd]
    obtain ⟨hmem, hle⟩ :=
      foldl_updMin_mem_le rest d hd (fun i hi => hpos i (List.mem_cons_of_mem _ hi))
    refine ⟨⟨fun h0 => ?_, fun h => absurd h (List.cons_ne_nil _ _)⟩,
      fun _ => ⟨hmem, hle⟩⟩
    have hp : 0 < rest.foldl updMin d := by
      rcases List.mem_cons.mp hmem with heq | hm
      · omega
      · exact hpos _ (List.mem_cons_of_mem _ hm)
    omega

theorem foldl_updMin_perm {l l2 : List Nat} (hp : l.Perm l2)
    (hpos : ∀ i ∈ l, 0 < i) : l.foldl updMin 0 = l2.foldl updMin 0 := by
  have hpos2 : ∀ i ∈ l2, 0 < i := fun i hi => hpos i (hp.mem_iff.mpr hi)
  by_cases hnil : l = []
  · subst hnil
    rw [List.perm_nil.mp hp.symm]
  · have hnil2 : l2 ≠ [] := by
      intro h
      subst h
      exact hnil (List.perm_nil.mp hp)
    obtain ⟨hm, hle⟩ := (foldl_updMin_zero l hpos).2 hnil
    obtain ⟨hm2, hle2⟩ := (foldl_updMin_zero l2 hpos2).2 hnil2
    exact Nat.le_antisymm (hle _ (hp.mem_iff.mpr hm2)) (hle2 _ (hp.mem_iff.mp hm))

/-- C4: for every list of candidate devices, the scan fold computes, per
tracked class, exactly the minimum positive candidate index classifying
as that class — membership plus lower bound — with the sentinel 0 exactly
when no candidate matches; and the result is invariant under any
permutation of the listing order. -/
theorem c4_scan_minimum (pfx : List Nat) (items : List BlockDev) :
    ((items.foldl (scan_step pfx) (0, 0)).1 = 0 ↔
      matched_ids pfx .HybridCoreELEC items = []) ∧
    (matched_ids pfx .HybridCoreELEC items ≠ [] →
      (items.foldl (scan_step pfx) (0, 0)).1 ∈
        matched_ids pfx .HybridCoreELEC items ∧
      ∀ i ∈ matched_ids pfx .HybridCoreELEC items,
        (items.foldl (scan_step pfx) (0, 0)).1 ≤ i) ∧
    ((items.foldl (scan_step pfx) (0, 0)).2 = 0 ↔
      matched_ids pfx .HybridEmuELEC items = []) ∧
    (matched_ids pfx .HybridEmuELEC items ≠ [] →
      (items.foldl (scan_step pfx) (0, 0)).2 ∈
        matched_ids pfx .HybridEmuELEC items ∧
      ∀ i ∈ matched_ids pfx .HybridEmuELEC items,
        (items.foldl (scan_step pfx) (0, 0)).2 ≤ i) ∧
    (∀ items2 : List BlockDev, items.Perm items2 →
      items.foldl (scan_step pfx) (0, 0) =
        items2.foldl (scan_step pfx) (0, 0)) := by
  rw [scan_fold_eq pfx items (0, 0)]
  dsimp only
  refine ⟨(foldl_updMin_zero _ (matched_ids_pos pfx _ items)).1,
    (foldl_updMin_zero _ (matched_ids_pos pfx _ items)).2,
    (foldl_updMin_zero _ (matched_ids_pos pfx _ items)).1,
    (foldl_updMin_zero _ (matched_ids_pos pfx _ items)).2, ?_⟩
  intro items2 hp
  rw [scan_fold_eq pfx items2 (0, 0)]
  have h1 := foldl_updMin_perm (hp.filterMap (matched_id_fn pfx .HybridCoreELEC))
    (matched_ids_pos pfx .HybridCoreELEC items)
  have h2 := foldl_updMin_perm (hp.filterMap (matched_id_fn pfx .HybridEmuELEC))
    (matched_ids_pos pfx .HybridEmuELEC items)
  unfold matched_ids
  rw [h1, h2]

/-- Concrete fixture: an opened FAT image whose root classifies as Hybrid
CoreELEC. -/
def hceImage : FATImage := ⟨hceDir⟩

/-- Concrete fixture: an opened device file mounting to `hceImage`. -/
def hceDevFile : DevFile := ⟨.ok hceImage⟩

/-- Concrete fixture: a Hybrid CoreELEC device with the given raw name. -/
def mkHceDev (name : List Nat) : BlockDev := ⟨name, .ok hceDevFile⟩

/-- Concrete fixture: candidate devices `p7`, `p3`, `p9` (bytes), all
classifying as Hybrid CoreELEC. -/
def scanDevs : List BlockDev :=
  [mkHceDev [112, 55], mkHceDev [112, 51], mkHceDev [112, 57]]

/-- Concrete fixture: `scanDevs` with its first two candidates swapped. -/
def scanDevsSwapped : List BlockDev :=
  [mkHceDev [112, 51], mkHceDev [112, 55], mkHceDev [112, 57]]

/-- Witness for C4: with candidates 7, 3 and 9 all Hybrid CoreELEC, the
scan fold result is a matched index, is a lower bound of all matched
indices, and is unchanged when the listing order is permuted. -/
theorem c4_scan_minimum_witness :
    ((scanDevs.foldl (scan_step [112]) (0, 0)).1 ∈
        matched_ids [112] .HybridCoreELEC scanDevs ∧
      ∀ i ∈ matched_ids [112] .HybridCoreELEC scanDevs,
        (scanDevs.foldl (scan_step [112]) (0, 0)).1 ≤ i) ∧
    scanDevs.foldl (scan_step [112]) (0, 0) =
      scanDevsSwapped.foldl (scan_step [112]) (0, 0) :=
  ⟨(c4_scan_minimum [112] scanDevs).2.1 (by decide),
   (c4_scan_minimum [112] scanDevs).2.2.2.2 scanDevsSwapped (by decide)⟩

/-- C9: the scan output is exactly the two whitespace-separated fold
results for the two tracked hybrid classes (with 0 meaning "none found"),
and a candidate that classifies as Official CoreELEC or Official EmuELEC
never affects either reported value. -/
theorem c9_hybrid_classes_only (pfx : List Nat) :
    (∀ items : List BlockDev,
      scan pfx (.ok (items.map Except.ok)) =
        .ok (toString (items.foldl (scan_step pfx) (0, 0)).1 ++ " " ++
          toString (items.foldl (scan_step pfx) (0, 0)).2)) ∧
    (∀ (pre post : List BlockDev) (d : BlockDev),
      (check_dir_entry_system d = .ok (some .OfficialCoreELEC) ∨
       check_dir_entry_system d = .ok (some .OfficialEmuELEC)) →
      (pre ++ d :: post).foldl (scan_step pfx) (0, 0) =
        (pre ++ post).foldl (scan_step pfx) (0, 0)) := by
  constructor
  · intro items
    unfold scan
    dsimp only
    rw [scan_loop_map_ok]
  · intro pre post d h
    have h1 : ¬ check_dir_entry_system d = .ok (some .HybridCoreELEC) := by
      rcases h with h | h <;> rw [h] <;> intro hc <;>
        exact SubSystem.noConfusion (Option.some.inj (Except.ok.inj hc))
    have h2 : ¬ check_dir_entry_system d = .ok (some .HybridEmuELEC) := by
      rcases h with h | h <;> rw [h] <;> intro hc <;>
        exact SubSystem.noConfusion (Option.some.inj (Except.ok.inj hc))
    rw [List.foldl_append, List.foldl_append, List.foldl_cons,
      scan_step_other pfx _ d h1 h2]

/-- Concrete fixture: a `cfgload` marker file carrying the Official
CoreELEC marker sequence. -/
def cfgloadOCE : FSEntry :=
  ⟨"cfgload", false, .ok (cfgload_flag .OfficialCoreELEC)⟩

/-- Concrete fixture: a complete directory classifying as Official
CoreELEC. -/
def oceDirEntries : List FSEntry :=
  [configIniEntry, deviceTreesEntry, kernelImgEntry, systemEntry, cfgloadOCE]

/-- Concrete fixture: a device (name `p1`) classifying as Official
CoreELEC. -/
def oceDev : BlockDev := ⟨[112, 49], .ok ⟨.ok ⟨oceDirEntries.map Except.ok⟩⟩⟩

/-- Witness for C9: an Official CoreELEC candidate contributes nothing to
the scan fold. -/
theorem c9_hybrid_classes_only_witness :
    ([oceDev] : List BlockDev).foldl (scan_step [112]) (0, 0) =
      ([] : List BlockDev).foldl (scan_step [112]) (0, 0) :=
  (c9_hybrid_classes_only [112]).2 [] [] oceDev (.inl (by decide))

end HybridAndroidHelper
